import Mathlib

/-!
Shallow embedding of the document assembly pipeline of `mdconv.py`
(GitBook-style markdown to single-document PDF/EPUB converter).

Each definition is translated from the corresponding Python function/fragment;
external library calls (mistune rendering, hashlib.md5, network I/O, the real
filesystem) are modelled as explicit function parameters or association lists,
and Python strings are modelled as Lean `String` (lists of characters).
-/

set_option maxHeartbeats 1600000

/-- Python `''.join(parts)`: left-to-right concatenation of a list of strings. -/
def concatAll : List String → String
  | [] => ""
  | s :: rest => s ++ concatAll rest

theorem stringMk_append (a b : List Char) :
    String.mk a ++ String.mk b = String.mk (a ++ b) := rfl

theorem stringMk_data (s : String) : String.mk s.data = s := rfl

theorem strAppend_assoc (a b c : String) : a ++ b ++ c = a ++ (b ++ c) := by
  cases a with
  | mk la =>
    cases b with
    | mk lb =>
      cases c with
      | mk lc => simp only [stringMk_append, List.append_assoc]

theorem concatAll_append (a b : List String) :
    concatAll (a ++ b) = concatAll a ++ concatAll b := by
  induction a with
  | nil =>
    show concatAll b = "" ++ concatAll b
    cases concatAll b with
    | mk l => rfl
  | cons s rest ih =>
    show s ++ concatAll (rest ++ b) = s ++ concatAll rest ++ concatAll b
    rw [ih, strAppend_assoc]

/-- Python `s.startswith(pre)`. -/
def strStartsWith (s pre : String) : Bool := pre.data.isPrefixOf s.data

/-- Python `s.endswith(suf)`. -/
def strEndsWith (s suf : String) : Bool := suf.data.isSuffixOf s.data

/-- Split a character list at its last `'/'`: returns
(prefix including the final `'/'`, final path component). -/
def splitLastSlash : List Char → List Char × List Char
  | [] => ([], [])
  | c :: rest =>
    if '/' ∈ rest then
      (c :: (splitLastSlash rest).1, (splitLastSlash rest).2)
    else if c = '/' then ([c], rest)
    else ([], c :: rest)

theorem splitLastSlash_append (l : List Char) :
    (splitLastSlash l).1 ++ (splitLastSlash l).2 = l := by
  induction l with
  | nil => rfl
  | cons c rest ih =>
    by_cases h : '/' ∈ rest
    · simp [splitLastSlash, h, ih]
    · by_cases hc : c = '/' <;> simp [splitLastSlash, h, hc]

/-- Split a character list at its last `'.'`: `some (before, after)` with the
dot itself dropped, or `none` when no dot occurs. -/
def splitLastDot : List Char → Option (List Char × List Char)
  | [] => none
  | c :: rest =>
    if '.' ∈ rest then
      match splitLastDot rest with
      | some (a, b) => some (c :: a, b)
      | none => none
    else if c = '.' then some ([], rest)
    else none

theorem splitLastDot_append (l : List Char) (a b : List Char)
    (h : splitLastDot l = some (a, b)) : a ++ '.' :: b = l := by
  induction l generalizing a b with
  | nil => simp [splitLastDot] at h
  | cons c rest ih =>
    by_cases hm : '.' ∈ rest
    · simp only [splitLastDot, hm, if_pos] at h
      cases hrec : splitLastDot rest with
      | none => rw [hrec] at h; simp at h
      | some p =>
        rw [hrec] at h
        cases p with
        | mk a' b' =>
          simp only [Option.some.injEq, Prod.mk.injEq] at h
          obtain ⟨h1, h2⟩ := h
          subst h1; subst h2
          simp [← ih a' b' hrec]
    · by_cases hc : c = '.'
      · simp only [splitLastDot, hm, if_neg, if_pos hc, Option.some.injEq,
          Prod.mk.injEq, reduceIte] at h
        obtain ⟨h1, h2⟩ := h
        subst h1; subst h2
        simp [hc]
      · simp [splitLastDot, hm, hc] at h

/-- CPython `posixpath.splitext`: split off the extension at the last dot of the
final path component, unless every character of that component before the dot
is itself a dot (so `.bashrc` has no extension). -/
def pySplitext (p : String) : String × String :=
  match splitLastDot (splitLastSlash p.data).2 with
  | none => (p, "")
  | some (root, extTail) =>
    if root.any (fun c => c != '.') then
      (String.mk ((splitLastSlash p.data).1 ++ root), String.mk ('.' :: extTail))
    else (p, "")

theorem pySplitext_append (p : String) :
    (pySplitext p).1 ++ (pySplitext p).2 = p := by
  unfold pySplitext
  cases hdot : splitLastDot (splitLastSlash p.data).2 with
  | none => simp only [hdot, String.append_empty]
  | some rp =>
    cases rp with
    | mk root extTail =>
      by_cases hroot : root.any (fun c => c != '.') = true
      · simp only [hdot, hroot, if_pos]
        rw [stringMk_append, List.append_assoc,
          splitLastDot_append _ _ _ hdot, splitLastSlash_append]
      · simp [hdot, hroot]

/-- Python `os.path.basename` (posix). -/
def pyBasename (p : String) : String := String.mk (splitLastSlash p.data).2

/-! ### Anchor derivation (`CustomRenderer.heading`, `rawchaptertext` handling)

Python: `re.sub(r'[^\w]+', '-', text.lower()).strip('-')`.
`isWordChar` is the ASCII part of Python's `\w` class (the anchors exercised
by the specification's examples are ASCII), `Char.toLower` matches `str.lower`
on ASCII. -/

def isWordChar (c : Char) : Bool := c.isAlphanum || c = '_'

/-- Replace every maximal run of non-word characters by a single `'-'`
(the effect of `re.sub(r'[^\w]+', '-', ...)`). -/
def collapseNonWord : List Char → List Char
  | [] => []
  | [c] => if isWordChar c then [c] else ['-']
  | c :: d :: rest =>
    if isWordChar c then c :: collapseNonWord (d :: rest)
    else if isWordChar d then '-' :: collapseNonWord (d :: rest)
    else collapseNonWord (d :: rest)

/-- Python `s.strip('-')`. -/
def stripDash (l : List Char) : List Char :=
  ((l.dropWhile (fun c => c = '-')).reverse.dropWhile (fun c => c = '-')).reverse

/-- Anchor id derived from a heading text or an inline chapter title. -/
def anchorOf (text : String) : String :=
  String.mk (stripDash (collapseNonWord (text.data.map Char.toLower)))

/-- Anchor id registered for a `FileChapter` reference
(`anchor = os.path.splitext(file_info)[0]` — the raw stem, not slugged). -/
def fileChapterAnchor (fileInfo : String) : String := (pySplitext fileInfo).1

/-! ### Local asset name resolution (`process_src_match`, local `src=` branch) -/

/-- ASCII letters and digits, the character class of `^[A-Za-z0-9]+$`. -/
def asciiAlnum (c : Char) : Bool := c.isUpper || c.isLower || c.isDigit

/-- Python `re.match(r'^[A-Za-z0-9]+$', s)` viewed as a Boolean: a nonempty
all-alphanumeric string, where `$` also tolerates one trailing newline. -/
def fullmatchAlnum (s : String) : Bool :=
  let t := if strEndsWith s "\n" then s.data.dropLast else s.data
  (!t.isEmpty) && t.all asciiAlnum

/-- Canonical name for a local image reference: from
`name, ext = os.path.splitext(os.path.basename(abs_path))`, keep `name + ext`
when `name` matches `^[A-Za-z0-9]+$`, else `md5(name) + ext`.  The digest is
an explicit parameter (`hashlib.md5(...).hexdigest()` is an external library
call); `os.path.abspath(os.path.join(docdir, decoded))` preserves the final
path component of `decoded`, so the basename is taken from the reference. -/
def resolveLocalName (md5hex : String → String) (decoded : String) : String :=
  let b := pyBasename decoded
  let ne := pySplitext b
  if fullmatchAlnum ne.1 then ne.1 ++ ne.2 else md5hex ne.1 ++ ne.2

/-! ### Local document-link rewriting (`process_src_match`, `href=` branch) -/

/-- Characters allowed after the first one in a URL scheme. -/
def schemeChar (c : Char) : Bool := c.isAlpha || c.isDigit || c = '+' || c = '-' || c = '.'

/-- `urlparse(decoded).scheme` is nonempty: a `':'` preceded by a valid scheme
(letter followed by letters/digits/`+`/`-`/`.`). -/
def pyHasScheme (s : String) : Bool :=
  let pre := s.data.takeWhile (fun c => c != ':')
  if pre.length = s.data.length then false
  else
    match pre with
    | [] => false
    | c :: rest => c.isAlpha && rest.all schemeChar

/-- The segment of `s` between its first and second `'#'`
(Python `s.split('#')[1]`). -/
def secondHashPart (s : String) : String :=
  String.mk (((s.data.dropWhile (fun c => c != '#')).drop 1).takeWhile (fun c => c != '#'))

/-- Does `".md#"` occur in the string? -/
def hasMdHash : List Char → Bool
  | '.' :: 'm' :: 'd' :: '#' :: _ => true
  | _ :: rest => hasMdHash rest
  | [] => false

/-- The `href="..."` branch of `process_src_match`, applied to the attribute
value (`unquote` is the identity on the percent-escape-free values modelled
here).  Note the Python replacement strings are `f'href="#${anchor}"'` and
`f'href="#${...}"'` — each contains a literal `'$'` before the interpolation. -/
def processHrefValue (val : String) : String :=
  if pyHasScheme val then "href=\"" ++ val ++ "\""
  else if strEndsWith val ".md" then
    "href=\"#$" ++ (pySplitext val).1 ++ "\""
  else if hasMdHash val.data then
    "href=\"#$" ++ secondHashPart val ++ "\""
  else "href=\"" ++ val ++ "\""

/-! ### Remote asset fetching and build-dir preparation
(`process_src_match` remote branch, `prepare_build_dir`)

The filesystem is modelled as the list of existing file paths.  A successful
fetch writes the destination file; `if not os.path.exists(dst)` guards the
download.  The returned `Nat` counts network operations. -/

def fetchRemoteAsset (fs : List String) (dst : String) : List String × Nat :=
  if dst ∈ fs then (fs, 0) else (dst :: fs, 1)

/-- `prepare_build_dir`: `shutil.rmtree(build_dir)` removes every file under
the build directory, then the (empty) `build` and `build/images` directories
are recreated. -/
def prepareBuildDir (buildDir : String) (fs : List String) : List String :=
  fs.filter (fun p => !strStartsWith p (buildDir ++ "/"))

/-- Resolve a run's remote asset destinations in order, counting fetches. -/
def runAssets (dsts : List String) (fs : List String) : List String × Nat :=
  dsts.foldl (fun acc dst =>
    let r := fetchRemoteAsset acc.1 dst
    (r.1, acc.2 + r.2)) (fs, 0)

/-- One whole pipeline run, asset-wise: `main` first calls
`prepare_build_dir(BUILD_DIR)`, then chapter processing fetches the remote
assets. -/
def runPipelineAssets (buildDir : String) (dsts : List String)
    (fs : List String) : List String × Nat :=
  runAssets dsts (prepareBuildDir buildDir fs)

/-! ### Per-chapter processing (`process_single_markdown_file`) -/

/-- Association-list filesystem of markdown sources: path ↦ file content. -/
def lookupFile : List (String × String) → String → Option String
  | [], _ => none
  | (k, v) :: rest, path => if k = path then some v else lookupFile rest path

/-- Python `s.split(':', 1)[1]`: everything after the first `':'`. -/
def afterFirstColon (s : String) : String :=
  String.mk ((s.data.dropWhile (fun c => c != ':')).drop 1)

/-- `process_single_markdown_file` (HTML component; the copy-task component is
not needed by the claims below).  `conv` stands for the external
mistune rendering composed with `convert_local_paths_worker`'s `src=`/`href=`
rewriting of the rendered fragment. -/
def processSingleMarkdownFile (conv : String → String) (fs : List (String × String))
    (docdir : String) (fileInfo : String) : String :=
  if strStartsWith fileInfo "rawchaptertext:" then
    let title := afterFirstColon fileInfo
    "<a id=\"" ++ anchorOf title ++ "\"></a>\n<h1>" ++ title ++ "</h1>\n"
  else
    let path := docdir ++ "/" ++ fileInfo
    match lookupFile fs path with
    | none => "<!-- Warning: " ++ path ++ " 不存在，已跳过 -->\n"
    | some mdContent =>
      "<a id=\"" ++ (pySplitext fileInfo).1 ++ "\"></a>\n" ++ conv mdContent ++ "\n"

/-! ### Parallel orchestration (`combine_markdown_to_html_parallel`)

`combined_parts = [None] * len(files)`; each completed future writes its
result into `combined_parts[index]`; finally `''.join(combined_parts)`.
The completion order of the futures is modelled as an arbitrary list of
indices (a permutation of `0..N-1` once every worker has completed). -/

def fillSlots (frag : Nat → String) (order : List Nat)
    (init : List (Option String)) : List (Option String) :=
  order.foldl (fun acc i => acc.set i (some (frag i))) init

def joinParts (slots : List (Option String)) : String :=
  concatAll (slots.map (fun o => o.getD ""))

/-- The merged document produced by `combine_markdown_to_html_parallel` when
the per-index fragment results are `pfn (files[i])` and the workers complete
in the order `order`. -/
def combineMarkdownToHtmlParallel (pfn : String → String) (files : List String)
    (order : List Nat) : String :=
  joinParts (fillSlots (fun i => pfn (files.getD i "")) order
    (List.replicate files.length none))

theorem fillSlots_length (frag : Nat → String) (order : List Nat)
    (init : List (Option String)) :
    (fillSlots frag order init).length = init.length := by
  induction order generalizing init with
  | nil => rfl
  | cons i rest ih =>
    show (fillSlots frag rest (init.set i (some (frag i)))).length = init.length
    rw [ih, List.length_set]

theorem fillSlots_getElem? (frag : Nat → String) (order : List Nat)
    (init : List (Option String)) (j : Nat) :
    (fillSlots frag order init)[j]? =
      if j ∈ order ∧ j < init.length then some (some (frag j)) else init[j]? := by
  induction order generalizing init with
  | nil => simp [fillSlots]
  | cons i rest ih =>
    show (fillSlots frag rest (init.set i (some (frag i))))[j]? = _
    rw [ih, List.length_set, List.getElem?_set]
    by_cases hjr : j ∈ rest
    · by_cases hjl : j < init.length
      · simp [hjr, hjl]
      · have hnone : init[j]? = none := List.getElem?_eq_none (Nat.le_of_not_lt hjl)
        by_cases hij : i = j
        · subst hij; simp [hjr, hjl, hnone]
        · simp [hjr, hjl, hij, hnone]
    · by_cases hij : i = j
      · subst hij
        by_cases hjl : i < init.length <;>
          simp [hjr, hjl, List.getElem?_eq_none, Nat.le_of_not_lt]
      · simp [hjr, hij, Ne.symm hij]

/-! ### Merged-document element model and the EPUB segmenter
(`generate_epub_with_ebooklib`)

The merged document is modelled at the level of its top-level HTML elements:
heading tags (with level and optional `id` attribute) and other raw markup.
`soup.find_all(['h1','h2'])` visits exactly the `htag` elements of level 1
or 2 in document order; each one's chapter content is the heading plus its
following siblings up to the next h1/h2. -/

inductive Elem
  | htag (lvl : Nat) (idAttr : Option String) (txt : String)
  | raw (s : String)
deriving DecidableEq

def isTocHeading : Elem → Bool
  | .htag 1 _ _ => true
  | .htag 2 _ _ => true
  | _ => false

/-- `header.get_text()`. -/
def elemTitle : Elem → String
  | .htag _ _ t => t
  | .raw _ => ""

/-- The chapter list built by the `for idx, header in enumerate(...)` loop:
one `(title, content)` chapter per h1/h2 heading, the content being the
heading itself plus the following elements up to (excluding) the next
h1/h2 heading. -/
def chaptersOf : List Elem → List (String × List Elem)
  | [] => []
  | e :: rest =>
    if isTocHeading e then
      (elemTitle e, e :: rest.takeWhile (fun s => !isTocHeading s)) :: chaptersOf rest
    else chaptersOf rest

/-- TOC tree node (the specification's `TocNode`): either a leaf chapter or a
section with children. -/
inductive TocNode
  | chapter (title : String)
  | sectionNode (title : String) (children : List TocNode)

/-- `book.toc = tuple(chapters)`: the TOC is the chapter list itself. -/
def tocOf (doc : List Elem) : List TocNode :=
  (chaptersOf doc).map (fun c => TocNode.chapter c.1)

/-! ### Fragment conversion at the element level
(`CustomRenderer.heading`, `process_single_markdown_file`)

A chapter's markdown content is modelled as its block sequence; mistune gives
each heading block of level `lvl` to `CustomRenderer.heading`, which emits
`<h{lvl+1} id="{anchor}">`. -/

inductive Block
  | hd (lvl : Nat) (txt : String)
  | par (s : String)

def renderBlock : Block → Elem
  | .hd lvl t => .htag (lvl + 1) (some (anchorOf t)) t
  | .par s => .raw s

/-- A manifest chapter reference: an inline title (`rawchaptertext:`) or a
file chapter together with the markdown block structure of its content. -/
inductive ChapterRef
  | inlineTitle (t : String)
  | fileChapter (path : String) (blocks : List Block)

/-- The element sequence of one chapter's fragment:
`rawchaptertext` yields `<a id=...></a>` plus a literal `<h1>`;
a file chapter yields `<a id=...></a>` plus its rendered blocks. -/
def fragmentElems : ChapterRef → List Elem
  | .inlineTitle t =>
    [Elem.raw ("<a id=\"" ++ anchorOf t ++ "\"></a>"), Elem.htag 1 none t]
  | .fileChapter f bs =>
    Elem.raw ("<a id=\"" ++ (pySplitext f).1 ++ "\"></a>") :: bs.map renderBlock

/-- The merged document's element sequence (fragments in manifest order). -/
def mergedElems (refs : List ChapterRef) : List Elem :=
  (refs.map fragmentElems).flatten

def h1Title : Elem → Option String
  | .htag 1 _ t => some t
  | _ => none

def inlineTitleOf : ChapterRef → Option String
  | .inlineTitle t => some t
  | .fileChapter _ _ => none

def blocksOfRef : ChapterRef → List Block
  | .inlineTitle _ => []
  | .fileChapter _ bs => bs

/-- Markdown heading levels are 1-based (mistune produces levels 1..6). -/
def blockLevelOk : Block → Bool
  | .hd lvl _ => lvl != 0
  | .par _ => true

/-! ### Manifest parsing (`main`)

`summary_md = re.sub(r'## (.+?)$', r'[\1](rawchaptertext:\1)', content,
flags=re.MULTILINE)` followed by
`files = re.findall(r'\[.*?\]\((.*?)\)', summary_md)`.

Neither pattern can cross a newline (`.` excludes `'\n'`, `$` matches before
each `'\n'`), so both passes are modelled line by line.  Note the heading
pattern is *unanchored*: it fires at the first occurrence of `"## "` followed
by at least one character anywhere in a line. -/

/-- First match of `## (.+?)$` inside one line: `some (before, title)` where
`before` is the text preceding the match and `title` the captured rest of the
line; `none` when the pattern does not occur. -/
def headingSplit : List Char → Option (List Char × List Char)
  | [] => none
  | c :: rest =>
    if c = '#' ∧ rest.head? = some '#' ∧ rest.tail.head? = some ' '
        ∧ rest.tail.tail ≠ [] then
      some ([], rest.tail.tail)
    else
      match headingSplit rest with
      | some (pre, title) => some (c :: pre, title)
      | none => none

/-- One line of `re.sub(r'## (.+?)$', r'[\1](rawchaptertext:\1)', ...)`. -/
def rewriteLineL (l : List Char) : List Char :=
  match headingSplit l with
  | none => l
  | some (pre, title) =>
    pre ++ '[' :: title ++ ']' :: '(' :: ("rawchaptertext:".data ++ title ++ [')'])

/-- Scanner state while matching `\[.*?\]\((.*?)\)` left to right:
looking for `'['`; inside the (non-greedy) label looking for the next `']'`;
just behind a candidate `']'` (is the next character `'('`?); or capturing
the target up to the first `')'`. -/
inductive ScanMode
  | seek
  | label
  | labelClose
  | target (acc : List Char)

/-- One left-to-right pass of `re.findall(r'\[.*?\]\((.*?)\)', line)`,
collecting the captured targets.  A `']'` not followed by `'('` is absorbed
into the non-greedy label, exactly as the regex backtracks past it; when a
partial match cannot be completed the rest of the line contains no `')'` —
respectively no `"]("` — so no later match exists either and the scan ends. -/
def scanLinks : ScanMode → List Char → List String
  | _, [] => []
  | m, c :: rest =>
    match m with
    | .seek => if c = '[' then scanLinks .label rest else scanLinks .seek rest
    | .label => if c = ']' then scanLinks .labelClose rest else scanLinks .label rest
    | .labelClose =>
      if c = '(' then scanLinks (.target []) rest
      else if c = ']' then scanLinks .labelClose rest
      else scanLinks .label rest
    | .target acc =>
      if c = ')' then String.mk acc.reverse :: scanLinks .seek rest
      else scanLinks (.target (c :: acc)) rest

def findLinks (l : List Char) : List String := scanLinks .seek l

def splitLinesAux : List Char → List Char → List (List Char)
  | [], acc => [acc.reverse]
  | c :: rest, acc =>
    if c = '\n' then acc.reverse :: splitLinesAux rest []
    else splitLinesAux rest (c :: acc)

/-- Split a character list on `'\n'` (keeping empty segments). -/
def splitLines (l : List Char) : List (List Char) := splitLinesAux l []

def parseLines (lls : List (List Char)) : List String :=
  (lls.map (fun l => findLinks (rewriteLineL l))).flatten

/-- `main`'s manifest parsing: the ordered list of link targets extracted from
the heading-rewritten summary text.  Position `i` of the result is the chapter
reference of index `i`. -/
def parseSummary (content : String) : List String :=
  parseLines (splitLines content.data)

/-! Structured manifests, used to state what the parser does on well-formed
input: each line is a section heading `## title`, a chapter link
`[label](target)`, or plain text. -/

inductive MLine
  | hdg (t : String)
  | link (label target : String)
  | plain (s : String)

def renderMLine : MLine → String
  | .hdg t => "## " ++ t
  | .link a b => "[" ++ a ++ "](" ++ b ++ ")"
  | .plain s => s

/-- The chapter references a well-formed manifest line contributes. -/
def refsOfLine : MLine → List String
  | .hdg t => ["rawchaptertext:" ++ t]
  | .link _ b => [b]
  | .plain _ => []

/-- Well-formedness: titles are nonempty and free of `']'`/`')'`; link labels
and targets avoid `'#'` and the closing delimiter; plain lines avoid `'#'`
and `'['`; no field contains a newline. -/
def cleanMLine : MLine → Bool
  | .hdg t =>
    (!t.data.isEmpty) && t.data.all (fun c => c != ']' && c != ')' && c != '\n')
  | .link a b =>
    a.data.all (fun c => c != '#' && c != ']' && c != '\n')
      && b.data.all (fun c => c != '#' && c != ')' && c != '\n')
  | .plain s => s.data.all (fun c => c != '#' && c != '[' && c != '\n')

/-- Join manifest lines with `'\n'` (the file content handed to `main`). -/
def joinLines : List String → String
  | [] => ""
  | [s] => s
  | s :: r :: rest => s ++ "\n" ++ joinLines (r :: rest)

/-! ## Claims -/

/-- C1: for every manifest yielding N chapter references and every completion
order of the parallel workers (any permutation of the indices), the merged
document passed to assembly is the concatenation of the per-chapter fragments
in manifest index order — completion order never affects output order. -/
theorem combine_order_preserved (pfn : String → String) (files : List String)
    (order : List Nat) (hperm : order.Perm (List.range files.length)) :
    combineMarkdownToHtmlParallel pfn files order = concatAll (files.map pfn) := by
  have hmem : ∀ j, j ∈ order ↔ j < files.length := by
    intro j
    rw [hperm.mem_iff, List.mem_range]
  have hslots : fillSlots (fun i => pfn (files.getD i "")) order
      (List.replicate files.length none)
      = (List.range files.length).map (fun i => some (pfn (files.getD i ""))) := by
    apply List.ext_getElem?
    intro j
    rw [fillSlots_getElem?, List.length_replicate]
    by_cases hj : j < files.length
    · simp [hmem j, hj, List.getElem?_range hj]
    · have hno : j ∉ order := fun m => hj ((hmem j).1 m)
      have hr : (List.range files.length)[j]? = none :=
        List.getElem?_eq_none (by simpa using Nat.le_of_not_lt hj)
      simp [hno, hj, hr]
      omega
  unfold combineMarkdownToHtmlParallel
  rw [hslots]
  unfold joinParts
  rw [List.map_map]
  have hmap : ((List.range files.length).map
        ((fun o : Option String => o.getD "") ∘ (fun i => some (pfn (files.getD i "")))))
      = (List.range files.length).map (fun i => pfn (files.getD i "")) := by
    simp [Function.comp]
  rw [hmap]
  congr 1
  apply List.ext_getElem?
  intro j
  rw [List.getElem?_map, List.getElem?_map]
  by_cases hj : j < files.length
  · rw [List.getElem?_range hj, List.getElem?_eq_getElem hj]
    simp [List.getD_eq_getElem?_getD, List.getElem?_eq_getElem hj]
  · have h1 : (List.range files.length)[j]? = none :=
      List.getElem?_eq_none (by simpa using Nat.le_of_not_lt hj)
    have h2 : files[j]? = none := List.getElem?_eq_none (Nat.le_of_not_lt hj)
    rw [h1, h2]; rfl

/-- Witness for C1: three files completed in the order 2, 0, 1. -/
theorem combine_order_preserved_witness :
    ([2, 0, 1] : List Nat).Perm (List.range (["a", "b", "c"] : List String).length)
    ∧ combineMarkdownToHtmlParallel (fun s => s ++ ";") ["a", "b", "c"] [2, 0, 1]
      = concatAll ((["a", "b", "c"] : List String).map (fun s => s ++ ";")) :=
  ⟨by decide, combine_order_preserved (fun s => s ++ ";") ["a", "b", "c"] [2, 0, 1] (by decide)⟩

/-- C7: a FileChapter reference whose source file does not exist yields the
inline diagnostic comment at exactly that reference's position in the merged
document, while every other chapter is still processed and present; the
per-reference processing is total, so missing chapter files are never fatal. -/
theorem missing_chapter_diagnostic (conv : String → String)
    (fs : List (String × String)) (docdir : String) (pre post : List String)
    (fi : String) (hraw : strStartsWith fi "rawchaptertext:" = false)
    (hmiss : lookupFile fs (docdir ++ "/" ++ fi) = none) :
    concatAll ((pre ++ fi :: post).map (processSingleMarkdownFile conv fs docdir))
      = concatAll (pre.map (processSingleMarkdownFile conv fs docdir))
        ++ ("<!-- Warning: " ++ (docdir ++ "/" ++ fi) ++ " 不存在，已跳过 -->\n")
        ++ concatAll (post.map (processSingleMarkdownFile conv fs docdir)) := by
  have hfi : processSingleMarkdownFile conv fs docdir fi
      = "<!-- Warning: " ++ (docdir ++ "/" ++ fi) ++ " 不存在，已跳过 -->\n" := by
    simp only [processSingleMarkdownFile]
    rw [if_neg (by simp [hraw]), hmiss]
  rw [List.map_append, List.map_cons, concatAll_append]
  show _ ++ (processSingleMarkdownFile conv fs docdir fi
      ++ concatAll (post.map (processSingleMarkdownFile conv fs docdir))) = _
  rw [hfi]
  simp [strAppend_assoc]

/-- Witness for C7: `missing.md` between an existing chapter and an inline
title. -/
theorem missing_chapter_diagnostic_witness :
    strStartsWith "missing.md" "rawchaptertext:" = false
    ∧ lookupFile [("docs/a.md", "A")] ("docs" ++ "/" ++ "missing.md") = none
    ∧ concatAll ((["a.md"] ++ "missing.md" :: ["rawchaptertext:Intro"]).map
        (processSingleMarkdownFile id [("docs/a.md", "A")] "docs"))
      = concatAll (["a.md"].map (processSingleMarkdownFile id [("docs/a.md", "A")] "docs"))
        ++ ("<!-- Warning: " ++ ("docs" ++ "/" ++ "missing.md") ++ " 不存在，已跳过 -->\n")
        ++ concatAll (["rawchaptertext:Intro"].map
            (processSingleMarkdownFile id [("docs/a.md", "A")] "docs")) :=
  ⟨by decide, by decide,
    missing_chapter_diagnostic id [("docs/a.md", "A")] "docs" ["a.md"]
      ["rawchaptertext:Intro"] "missing.md" (by decide) (by decide)⟩

/-- C4: the canonical local-asset name is a pure function of the source path's
basename — kept verbatim when the stem matches `^[A-Za-z0-9]+$`, otherwise the
(content-independent) digest of the stem plus the original extension; two
chapters referencing the same basename resolve to the identical name. -/
theorem resolved_name_of_basename (md5hex : String → String) (p : String) :
    (fullmatchAlnum (pySplitext (pyBasename p)).1 = true →
      resolveLocalName md5hex p = pyBasename p)
    ∧ (fullmatchAlnum (pySplitext (pyBasename p)).1 = false →
      resolveLocalName md5hex p
        = md5hex (pySplitext (pyBasename p)).1 ++ (pySplitext (pyBasename p)).2)
    ∧ (∀ q : String, pyBasename q = pyBasename p →
      resolveLocalName md5hex q = resolveLocalName md5hex p) := by
  refine ⟨?_, ?_, ?_⟩
  · intro h
    simp only [resolveLocalName]
    rw [if_pos h, pySplitext_append]
  · intro h
    simp only [resolveLocalName]
    rw [if_neg (by simp [h])]
  · intro q hq
    simp only [resolveLocalName]
    rw [hq]

/-- Helper digest standing in for `hashlib.md5(...).hexdigest()` in witnesses. -/
def tagHash (s : String) : String := "h-" ++ s

/-- Witness for C4: `img 1.png` (stem contains a space) is digest-renamed,
keeping `.png`. -/
theorem resolved_name_of_basename_witness :
    fullmatchAlnum (pySplitext (pyBasename "ch/img 1.png")).1 = false
    ∧ resolveLocalName tagHash "ch/img 1.png"
      = tagHash (pySplitext (pyBasename "ch/img 1.png")).1
        ++ (pySplitext (pyBasename "ch/img 1.png")).2 :=
  ⟨by decide, (resolved_name_of_basename tagHash "ch/img 1.png").2.1 (by decide)⟩

/-- C2 (code bug): the link rewriter emits `href="#$<stem>"` — the Python
replacement template `f'href="#${anchor}"'` contains a literal `'$'` — while
the target chapter registers the anchor id `<stem>` without the `'$'`, so the
rewritten fragment never equals the registered `anchor_id`; likewise
`.md#frag` becomes `#$frag`, not `#frag`. -/
theorem href_rewrite_dollar_mismatch :
    processHrefValue "intro.md" = "href=\"#$intro\""
    ∧ fileChapterAnchor "intro.md" = "intro"
    ∧ processHrefValue "ch2.md#setup" = "href=\"#$setup\""
    ∧ processHrefValue "intro.md" ≠ "href=\"#" ++ fileChapterAnchor "intro.md" ++ "\"" :=
  ⟨by decide, by decide, by decide, by decide⟩

/-- C3 counterexample: a FileChapter whose stem contains uppercase letters and
non-word characters registers the raw stem as its anchor id — the anchor is
not case-folded / collapsed / stripped as the claim states for file stems. -/
theorem file_anchor_not_slugged :
    fileChapterAnchor "My Chapter!.md" = "My Chapter!"
    ∧ anchorOf "My Chapter!" = "my-chapter"
    ∧ fileChapterAnchor "My Chapter!.md" ≠ anchorOf "My Chapter!" :=
  ⟨by decide, by decide, by decide⟩

theorem dropWhile_past_colon (pre t : List Char) (h : ':' ∉ pre) :
    (((pre ++ ':' :: t).dropWhile (fun c => c != ':')).drop 1) = t := by
  induction pre with
  | nil => simp [List.dropWhile_cons]
  | cons c cs ih =>
    have hc : c ≠ ':' := by rintro rfl; exact h (List.mem_cons_self _ _)
    have hcs : ':' ∉ cs := fun m => h (List.mem_cons_of_mem c m)
    rw [List.cons_append, List.dropWhile_cons, if_pos (by simp [hc])]
    exact ih hcs

theorem afterFirstColon_raw (t : String) :
    afterFirstColon ("rawchaptertext:" ++ t) = t := by
  unfold afterFirstColon
  have hdata : ("rawchaptertext:" ++ t).data
      = "rawchaptertext".data ++ ':' :: t.data := rfl
  rw [hdata, dropWhile_past_colon _ _ (by decide)]

/-- C3 amended: anchors derived from a *title* (inline `rawchaptertext:`
chapters, and headings via `CustomRenderer.heading`) are slugged — case-folded,
non-word runs collapsed to a single `'-'`, leading/trailing separators
stripped, e.g. `"Getting Started!"` ↦ `getting-started` — and the derivation
is deterministic; anchors of FileChapter references are the file path minus
its extension, verbatim. -/
theorem anchor_derivation_rules :
    anchorOf "Getting Started!" = "getting-started"
    ∧ (∀ t : String, anchorOf t = anchorOf t)
    ∧ (∀ t conv fs docdir, processSingleMarkdownFile conv fs docdir ("rawchaptertext:" ++ t)
        = "<a id=\"" ++ anchorOf t ++ "\"></a>\n<h1>" ++ t ++ "</h1>\n")
    ∧ (∀ f : String, fileChapterAnchor f = (pySplitext f).1) := by
  refine ⟨by decide, fun _ => rfl, ?_, fun _ => rfl⟩
  intro t conv fs docdir
  have hpre : strStartsWith ("rawchaptertext:" ++ t) "rawchaptertext:" = true := by
    unfold strStartsWith
    rw [List.isPrefixOf_iff_prefix]
    exact ⟨t.data, rfl⟩
  simp only [processSingleMarkdownFile]
  rw [if_pos hpre, afterFirstColon_raw]

/-- C5 counterexample: for a merged document containing zero heading elements
the segmenter returns the empty chapter list, not one synthetic chapter. -/
theorem segmenter_zero_headings_empty :
    chaptersOf [Elem.raw "<p>only text</p>"] = []
    ∧ (chaptersOf [Elem.raw "<p>only text</p>"]).length ≠ 1 :=
  ⟨rfl, by decide⟩

/-- C5 amended: the segmenter produces exactly one chapter per h1/h2 heading
element of the merged document; in particular a document with zero headings
yields the empty chapter list (content outside every heading is dropped, and
no synthetic chapter is created). -/
theorem segmenter_chapter_count (doc : List Elem) :
    (chaptersOf doc).length = doc.countP isTocHeading := by
  induction doc with
  | nil => rfl
  | cons e rest ih =>
    by_cases h : isTocHeading e = true <;>
      simp [chaptersOf, h, ih, List.countP_cons]

def docACBD : List Elem :=
  [Elem.htag 1 none "A", Elem.htag 2 none "B", Elem.htag 2 none "C",
   Elem.htag 1 none "D"]

/-- C6 counterexample: for the heading sequence H1 "A", H2 "B", H2 "C",
H1 "D" the produced TOC is the flat chapter list, not the claimed
two-level Section tree. -/
theorem toc_flat_not_nested :
    tocOf docACBD
      = [TocNode.chapter "A", TocNode.chapter "B", TocNode.chapter "C",
         TocNode.chapter "D"]
    ∧ tocOf docACBD
      ≠ [TocNode.sectionNode "A"
          [TocNode.chapter "A", TocNode.chapter "B", TocNode.chapter "C"],
         TocNode.chapter "D"] := by
  refine ⟨rfl, fun h => ?_⟩
  have h2 : [TocNode.chapter "A", TocNode.chapter "B", TocNode.chapter "C",
      TocNode.chapter "D"]
      = [TocNode.sectionNode "A"
          [TocNode.chapter "A", TocNode.chapter "B", TocNode.chapter "C"],
         TocNode.chapter "D"] := h
  injection h2 with h3 h4
  exact TocNode.noConfusion h3

/-- C6 amended: the TOC handed to the EPUB writer is the flat ordered list of
one `Chapter` per h1/h2 heading of the merged document (`book.toc =
tuple(chapters)`); no `Section` nesting is ever built. -/
theorem toc_flat_one_chapter_per_heading (doc : List Elem) :
    tocOf doc
      = (doc.filterMap
          (fun e => if isTocHeading e then some (elemTitle e) else none)).map
        TocNode.chapter := by
  induction doc with
  | nil => rfl
  | cons e rest ih =>
    by_cases h : isTocHeading e = true <;>
      simp [tocOf, chaptersOf, h, List.filterMap_cons] <;>
      simpa [tocOf] using ih

/-- C8 counterexample: running the whole pipeline a second time against an
unchanged manifest does *not* perform zero network operations —
`prepare_build_dir` first deletes the build directory, so the previously
fetched asset is downloaded again (1 fetch, not 0). -/
theorem rerun_refetches_assets :
    (runPipelineAssets "build" ["build/images/logo.png"]
      (runPipelineAssets "build" ["build/images/logo.png"] []).1).2 = 1
    ∧ (runPipelineAssets "build" ["build/images/logo.png"]
      (runPipelineAssets "build" ["build/images/logo.png"] []).1).2 ≠ 0 :=
  ⟨by decide, by decide⟩

/-- C8 amended: within a single run remote fetching is idempotent — a
destination that already exists is never fetched, and fetching the same
destination twice performs no second network operation — but this does not
extend across pipeline runs, since `prepare_build_dir` deletes the build
directory first. -/
theorem fetch_skip_existing (fs : List String) (dst : String) :
    (dst ∈ fs → fetchRemoteAsset fs dst = (fs, 0))
    ∧ (fetchRemoteAsset (fetchRemoteAsset fs dst).1 dst).2 = 0 := by
  constructor
  · intro h
    simp [fetchRemoteAsset, h]
  · by_cases h : dst ∈ fs <;> simp [fetchRemoteAsset, h]

/-- Witness for C8's amended claim at a concrete filesystem. -/
theorem fetch_skip_existing_witness :
    "build/images/a.png" ∈ ["build/images/a.png"]
    ∧ fetchRemoteAsset ["build/images/a.png"] "build/images/a.png"
      = (["build/images/a.png"], 0) :=
  ⟨by decide,
    (fetch_skip_existing ["build/images/a.png"] "build/images/a.png").1 (by decide)⟩

theorem filterMap_h1_renderBlocks (bs : List Block)
    (h : ∀ b ∈ bs, blockLevelOk b = true) :
    (bs.map renderBlock).filterMap h1Title = [] := by
  induction bs with
  | nil => rfl
  | cons b rest ih =>
    have hb := h b (List.mem_cons_self b rest)
    have hrest : ∀ b' ∈ rest, blockLevelOk b' = true :=
      fun b' m => h b' (List.mem_cons_of_mem b m)
    rw [List.map_cons, List.filterMap_cons]
    have hnone : h1Title (renderBlock b) = none := by
      cases b with
      | hd lvl t =>
        have hlvl : lvl ≠ 0 := by simpa [blockLevelOk] using hb
        obtain ⟨n, rfl⟩ := Nat.exists_eq_succ_of_ne_zero hlvl
        rfl
      | par s => rfl
    rw [hnone]
    exact ih hrest

theorem filterMap_h1_fragment (r : ChapterRef)
    (h : ∀ b ∈ blocksOfRef r, blockLevelOk b = true) :
    (fragmentElems r).filterMap h1Title = (inlineTitleOf r).toList := by
  cases r with
  | inlineTitle t => rfl
  | fileChapter f bs =>
    show (Elem.raw _ :: bs.map renderBlock).filterMap h1Title = []
    rw [List.filterMap_cons]
    exact filterMap_h1_renderBlocks bs h

/-- C10: the converter renders a markdown heading of level L as an element of
level L+1 (`CustomRenderer.heading` emits `<h{level+1}>`), so — since markdown
heading levels are ≥ 1 — the h1 elements of the merged document are exactly
the titles of the manifest's InlineTitle (`rawchaptertext:`) entries, in order:
every top-level boundary seen by the segmenter originates from a manifest
section title, never from a heading inside chapter content. -/
theorem h1_only_from_inline_titles (refs : List ChapterRef)
    (h : ∀ r ∈ refs, ∀ b ∈ blocksOfRef r, blockLevelOk b = true) :
    (∀ lvl t, renderBlock (Block.hd lvl t) = Elem.htag (lvl + 1) (some (anchorOf t)) t)
    ∧ (mergedElems refs).filterMap h1Title = refs.filterMap inlineTitleOf := by
  refine ⟨fun _ _ => rfl, ?_⟩
  induction refs with
  | nil => rfl
  | cons r rest ih =>
    have hr : ∀ b ∈ blocksOfRef r, blockLevelOk b = true :=
      fun b m => h r (List.mem_cons_self r rest) b m
    have hrest : ∀ r' ∈ rest, ∀ b ∈ blocksOfRef r', blockLevelOk b = true :=
      fun r' m => h r' (List.mem_cons_of_mem r m)
    rw [mergedElems, List.map_cons, List.flatten_cons, List.filterMap_append,
      List.filterMap_cons, filterMap_h1_fragment r hr]
    have ihr := ih hrest
    rw [mergedElems] at ihr
    rw [ihr]
    cases r with
    | inlineTitle t => rfl
    | fileChapter f bs => rfl

/-- Witness for C10: an inline title followed by a file chapter whose content
has a level-1 markdown heading (rendered as h2), then another inline title. -/
theorem h1_only_from_inline_titles_witness :
    (∀ r ∈ [ChapterRef.inlineTitle "Part One",
            ChapterRef.fileChapter "a.md" [Block.hd 1 "Intro", Block.par "<p>x</p>"],
            ChapterRef.inlineTitle "Part Two"],
        ∀ b ∈ blocksOfRef r, blockLevelOk b = true)
    ∧ (mergedElems [ChapterRef.inlineTitle "Part One",
          ChapterRef.fileChapter "a.md" [Block.hd 1 "Intro", Block.par "<p>x</p>"],
          ChapterRef.inlineTitle "Part Two"]).filterMap h1Title
      = [ChapterRef.inlineTitle "Part One",
         ChapterRef.fileChapter "a.md" [Block.hd 1 "Intro", Block.par "<p>x</p>"],
         ChapterRef.inlineTitle "Part Two"].filterMap inlineTitleOf :=
  ⟨by decide,
    (h1_only_from_inline_titles
      [ChapterRef.inlineTitle "Part One",
       ChapterRef.fileChapter "a.md" [Block.hd 1 "Intro", Block.par "<p>x</p>"],
       ChapterRef.inlineTitle "Part Two"] (by decide)).2⟩

theorem not_mem_of_all_bne (l : List Char) (x : Char) (p : Char → Bool)
    (hall : l.all p = true) (hx : p x = false) : x ∉ l := by
  intro hm
  have hpx := List.all_eq_true.mp hall x hm
  rw [hx] at hpx
  exact Bool.false_ne_true hpx

theorem not_mem_cons_of (c x : Char) (l : List Char) (hne : x ≠ c)
    (h : x ∉ l) : x ∉ c :: l := by
  intro hm
  rcases List.mem_cons.mp hm with he | hm2
  · exact hne he
  · exact h hm2

theorem not_mem_append_of (x : Char) (a b : List Char) (ha : x ∉ a)
    (hb : x ∉ b) : x ∉ a ++ b := by
  intro hm
  rcases List.mem_append.mp hm with hm1 | hm2
  · exact ha hm1
  · exact hb hm2

theorem scanLinks_seek_bracket (l : List Char) :
    scanLinks .seek ('[' :: l) = scanLinks .label l := by
  simp [scanLinks]

theorem scanLinks_label_close_open (l : List Char) :
    scanLinks .label (']' :: '(' :: l) = scanLinks (.target []) l := by
  simp [scanLinks]

theorem scanLinks_seek_skip (l : List Char) :
    ∀ m, '[' ∉ l → scanLinks .seek (l ++ m) = scanLinks .seek m := by
  induction l with
  | nil => intro m _; rfl
  | cons c cs ih =>
    intro m h
    have hc : c ≠ '[' := by rintro rfl; exact h (List.mem_cons_self _ _)
    have hcs : '[' ∉ cs := fun hm => h (List.mem_cons_of_mem c hm)
    simp only [List.cons_append, scanLinks]
    rw [if_neg hc]
    exact ih m hcs

theorem scanLinks_seek_none (l : List Char) (h : '[' ∉ l) :
    scanLinks .seek l = [] := by
  have h2 := scanLinks_seek_skip l [] h
  rw [List.append_nil] at h2
  exact h2

theorem scanLinks_label_skip (l : List Char) :
    ∀ m, ']' ∉ l → scanLinks .label (l ++ m) = scanLinks .label m := by
  induction l with
  | nil => intro m _; rfl
  | cons c cs ih =>
    intro m h
    have hc : c ≠ ']' := by rintro rfl; exact h (List.mem_cons_self _ _)
    have hcs : ']' ∉ cs := fun hm => h (List.mem_cons_of_mem c hm)
    simp only [List.cons_append, scanLinks]
    rw [if_neg hc]
    exact ih m hcs

theorem scanLinks_target_run (b : List Char) :
    ∀ acc rest, ')' ∉ b →
      scanLinks (.target acc) (b ++ ')' :: rest)
        = String.mk (acc.reverse ++ b) :: scanLinks .seek rest := by
  induction b with
  | nil =>
    intro acc rest _
    simp [scanLinks]
  | cons c cs ih =>
    intro acc rest h
    have hc : c ≠ ')' := by rintro rfl; exact h (List.mem_cons_self _ _)
    have hcs : ')' ∉ cs := fun hm => h (List.mem_cons_of_mem c hm)
    simp only [List.cons_append, scanLinks, List.append_eq]
    rw [if_neg hc, ih (c :: acc) rest hcs]
    simp

theorem headingSplit_no_hash (l : List Char) (h : '#' ∉ l) :
    headingSplit l = none := by
  induction l with
  | nil => rfl
  | cons c rest ih =>
    have hc : c ≠ '#' := by rintro rfl; exact h (List.mem_cons_self _ _)
    have hrest : '#' ∉ rest := fun m => h (List.mem_cons_of_mem c m)
    simp only [headingSplit]
    rw [if_neg (by simp [hc]), ih hrest]

theorem headingSplit_heading (t : List Char) (ht : t ≠ []) :
    headingSplit ('#' :: '#' :: ' ' :: t) = some ([], t) := by
  cases t with
  | nil => exact absurd rfl ht
  | cons d ds => simp [headingSplit]

theorem rewriteLineL_no_hash (l : List Char) (h : '#' ∉ l) :
    rewriteLineL l = l := by
  unfold rewriteLineL
  rw [headingSplit_no_hash l h]

theorem rewriteLineL_heading (t : List Char) (ht : t ≠ []) :
    rewriteLineL ('#' :: '#' :: ' ' :: t)
      = '[' :: (t ++ (']' :: '(' :: ("rawchaptertext:".data ++ (t ++ [')'])))) := by
  unfold rewriteLineL
  rw [headingSplit_heading t ht]
  simp [List.append_assoc]

theorem splitLinesAux_no_newline (l : List Char) :
    ∀ acc, '\n' ∉ l → splitLinesAux l acc = [acc.reverse ++ l] := by
  induction l with
  | nil => intro acc _; simp [splitLinesAux]
  | cons c cs ih =>
    intro acc h
    have hc : c ≠ '\n' := by rintro rfl; exact h (List.mem_cons_self _ _)
    have hcs : '\n' ∉ cs := fun m => h (List.mem_cons_of_mem c m)
    simp only [splitLinesAux]
    rw [if_neg hc, ih (c :: acc) hcs]
    simp

theorem splitLinesAux_split (l : List Char) :
    ∀ m acc, '\n' ∉ l →
      splitLinesAux (l ++ '\n' :: m) acc
        = (acc.reverse ++ l) :: splitLinesAux m [] := by
  induction l with
  | nil =>
    intro m acc _
    simp [splitLinesAux]
  | cons c cs ih =>
    intro m acc h
    have hc : c ≠ '\n' := by rintro rfl; exact h (List.mem_cons_self _ _)
    have hcs : '\n' ∉ cs := fun hm => h (List.mem_cons_of_mem c hm)
    simp only [List.cons_append, splitLinesAux, List.append_eq]
    rw [if_neg hc, ih m (c :: acc) hcs]
    simp

theorem renderMLine_link_data (a b : String) :
    (renderMLine (MLine.link a b)).data
      = '[' :: (a.data ++ (']' :: '(' :: (b.data ++ [')']))) := by
  simp only [renderMLine, String.data_append, List.append_assoc]
  rfl

theorem renderMLine_no_newline (m : MLine) (h : cleanMLine m = true) :
    '\n' ∉ (renderMLine m).data := by
  cases m with
  | hdg t =>
    simp only [cleanMLine, Bool.and_eq_true] at h
    have hnt : '\n' ∉ t.data := not_mem_of_all_bne _ _ _ h.2 (by decide)
    show '\n' ∉ '#' :: '#' :: ' ' :: t.data
    exact not_mem_cons_of _ _ _ (by decide)
      (not_mem_cons_of _ _ _ (by decide) (not_mem_cons_of _ _ _ (by decide) hnt))
  | link a b =>
    simp only [cleanMLine, Bool.and_eq_true] at h
    have hna : '\n' ∉ a.data := not_mem_of_all_bne _ _ _ h.1 (by decide)
    have hnb : '\n' ∉ b.data := not_mem_of_all_bne _ _ _ h.2 (by decide)
    rw [renderMLine_link_data]
    exact not_mem_cons_of _ _ _ (by decide)
      (not_mem_append_of _ _ _ hna (not_mem_cons_of _ _ _ (by decide)
        (not_mem_cons_of _ _ _ (by decide)
          (not_mem_append_of _ _ _ hnb (by decide)))))
  | plain s =>
    simp only [cleanMLine] at h
    exact not_mem_of_all_bne _ _ _ h (by decide)

theorem line_refs (m : MLine) (h : cleanMLine m = true) :
    findLinks (rewriteLineL (renderMLine m).data) = refsOfLine m := by
  cases m with
  | hdg t =>
    simp only [cleanMLine, Bool.and_eq_true] at h
    have hne : t.data ≠ [] := by
      intro he
      rw [List.isEmpty_iff.mpr he] at h
      exact Bool.false_ne_true h.1
    have hnb : ']' ∉ t.data := not_mem_of_all_bne _ _ _ h.2 (by decide)
    have hnp : ')' ∉ t.data := not_mem_of_all_bne _ _ _ h.2 (by decide)
    have hd : (renderMLine (MLine.hdg t)).data = '#' :: '#' :: ' ' :: t.data := rfl
    rw [hd, rewriteLineL_heading t.data hne]
    unfold findLinks
    rw [scanLinks_seek_bracket, scanLinks_label_skip t.data _ hnb,
      scanLinks_label_close_open]
    have hassoc : "rawchaptertext:".data ++ (t.data ++ [')'])
        = ("rawchaptertext:".data ++ t.data) ++ ')' :: [] := by
      rw [List.append_assoc]
    rw [hassoc, scanLinks_target_run _ _ _
      (not_mem_append_of _ _ _ (by decide) hnp)]
    rfl
  | link a b =>
    simp only [cleanMLine, Bool.and_eq_true] at h
    have hca : '#' ∉ a.data := not_mem_of_all_bne _ _ _ h.1 (by decide)
    have hba : ']' ∉ a.data := not_mem_of_all_bne _ _ _ h.1 (by decide)
    have hcb : '#' ∉ b.data := not_mem_of_all_bne _ _ _ h.2 (by decide)
    have hpb : ')' ∉ b.data := not_mem_of_all_bne _ _ _ h.2 (by decide)
    rw [renderMLine_link_data]
    have hnh : '#' ∉ ('[' :: (a.data ++ (']' :: '(' :: (b.data ++ [')'])))) :=
      not_mem_cons_of _ _ _ (by decide)
        (not_mem_append_of _ _ _ hca (not_mem_cons_of _ _ _ (by decide)
          (not_mem_cons_of _ _ _ (by decide)
            (not_mem_append_of _ _ _ hcb (by decide)))))
    rw [rewriteLineL_no_hash _ hnh]
    unfold findLinks
    rw [scanLinks_seek_bracket, scanLinks_label_skip a.data _ hba,
      scanLinks_label_close_open, scanLinks_target_run b.data [] [] hpb]
    rfl
  | plain s =>
    simp only [cleanMLine] at h
    have hns : '#' ∉ s.data := not_mem_of_all_bne _ _ _ h (by decide)
    have hnb : '[' ∉ s.data := not_mem_of_all_bne _ _ _ h (by decide)
    show findLinks (rewriteLineL s.data) = []
    rw [rewriteLineL_no_hash _ hns]
    exact scanLinks_seek_none _ hnb

/-- C9 amended: the heading rewrite of `main` fires on the first occurrence of
`"## "` followed by at least one character *anywhere in a line* (the regex is
unanchored), not only on lines that are second-level headings; on manifests
whose lines are exactly `## title` headings, `[label](target)` links, and
plain text (fields free of the delimiter characters), the resulting chapter
references are the claimed ones: each heading line yields a
`rawchaptertext:<title>` reference at its position and each link yields its
target, the list order (positions `0..N-1`) being document order. -/
theorem summary_structured (ls : List MLine) :
    (∀ m ∈ ls, cleanMLine m = true) →
    parseSummary (joinLines (ls.map renderMLine)) = (ls.map refsOfLine).flatten := by
  induction ls with
  | nil => intro _; rfl
  | cons m rest ih =>
    intro h
    have hm := h m (List.mem_cons_self m rest)
    have hrest : ∀ x ∈ rest, cleanMLine x = true :=
      fun x hx => h x (List.mem_cons_of_mem m hx)
    have hnl : '\n' ∉ (renderMLine m).data := renderMLine_no_newline m hm
    cases rest with
    | nil =>
      show parseLines (splitLinesAux (renderMLine m).data []) = refsOfLine m ++ []
      rw [splitLinesAux_no_newline _ [] hnl]
      show findLinks (rewriteLineL (List.reverse [] ++ (renderMLine m).data)) ++ []
        = refsOfLine m ++ []
      rw [List.reverse_nil, List.nil_append, line_refs m hm]
    | cons m2 rest2 =>
      have hdata : ((renderMLine m ++ "\n")
            ++ joinLines (renderMLine m2 :: rest2.map renderMLine)).data
          = (renderMLine m).data
            ++ '\n' :: (joinLines (renderMLine m2 :: rest2.map renderMLine)).data := by
        rw [String.data_append, String.data_append, List.append_assoc]
        rfl
      show parseLines (splitLinesAux ((renderMLine m ++ "\n")
          ++ joinLines (renderMLine m2 :: rest2.map renderMLine)).data []) = _
      rw [hdata, splitLinesAux_split _ _ [] hnl]
      show findLinks (rewriteLineL (List.reverse [] ++ (renderMLine m).data))
          ++ parseLines (splitLinesAux
            (joinLines (renderMLine m2 :: rest2.map renderMLine)).data [])
        = refsOfLine m ++ ((m2 :: rest2).map refsOfLine).flatten
      rw [List.reverse_nil, List.nil_append, line_refs m hm]
      congr 1
      exact ih hrest

/-- Witness for C9's amended claim on a three-line manifest. -/
theorem summary_structured_witness :
    (∀ m ∈ [MLine.hdg "Intro", MLine.link "Chapter 1" "ch1.md", MLine.plain "text"],
        cleanMLine m = true)
    ∧ parseSummary (joinLines
        ([MLine.hdg "Intro", MLine.link "Chapter 1" "ch1.md",
          MLine.plain "text"].map renderMLine))
      = ([MLine.hdg "Intro", MLine.link "Chapter 1" "ch1.md",
          MLine.plain "text"].map refsOfLine).flatten :=
  ⟨by decide,
    summary_structured
      [MLine.hdg "Intro", MLine.link "Chapter 1" "ch1.md", MLine.plain "text"]
      (by decide)⟩

/-- C9 counterexample: the line `### Deep` is not a second-level heading line
`## <title>` (and contains no markdown link), yet manifest parsing rewrites it
— the unanchored regex matches the `"## "` inside `###` — and produces the
chapter reference `rawchaptertext:Deep` where the claim predicts none. -/
theorem summary_rewrites_non_heading_lines :
    parseSummary "### Deep" = ["rawchaptertext:Deep"]
    ∧ strStartsWith "### Deep" "## " = false
    ∧ parseSummary "### Deep" ≠ [] :=
  ⟨by decide, by decide, by decide⟩
